import Mathlib

/-!
Shallow embedding of the user CRUD core of the repository
(`app/repositories/user_repository.py`, `app/services/user_service.py`,
`app/models/db_models.py`, `app/models/user.py`,
`app/exceptions/user_exceptions.py`).

Modelling choices:
* A store state is the ordered list of persisted rows (`UserDB` rows in
  insertion / rowid order, which is the order an unordered SQLite `SELECT`
  returns and the order `OFFSET`/`LIMIT` paginate over).
* UUIDs are modelled as `Nat`, timestamps (`datetime.utcnow`) as `Nat`.
* Exceptions become an `Except UserError` result; mutating operations
  return the resulting store explicitly.  When an exception is raised the
  surrounding session is rolled back (`app/database.py: get_db`), so the
  error branches return the store unchanged.
* `UserUpdate` is a Pydantic model whose `model_dump(exclude_unset=True)`
  distinguishes a field that was never supplied from a field supplied as
  `null`; each field is therefore an `Option (Option String)`: `none` is
  unset, `some none` is an explicit null, `some (some v)` is a value.
  Writing `null` into the non-nullable `name`/`email` columns makes the
  flush fail with an integrity error, modelled by `UserError.integrityError`.
-/

/-- A persisted user row (`UserDB` in `app/models/db_models.py`):
id, name, email, created_at, updated_at. -/
structure UserRec where
  id : Nat
  name : String
  email : String
  created_at : Nat
  updated_at : Nat
deriving Repr, DecidableEq

/-- The store state: persisted rows in insertion (rowid) order. -/
abbrev Store := List UserRec

/-- Payload of `UserCreate` (`app/models/user.py`): both fields required. -/
structure UserCreate where
  name : String
  email : String
deriving Repr, DecidableEq

/-- Payload of `UserUpdate` (`app/models/user.py`): each field is unset
(`none`), explicitly null (`some none`) or a value (`some (some v)`). -/
structure UserUpdate where
  name : Option (Option String) := none
  email : Option (Option String) := none
deriving Repr, DecidableEq

/-- Failures crossing the repository/service boundary:
`UserAlreadyExistsError` and `UserNotFoundError`
(`app/exceptions/user_exceptions.py`), plus the integrity error the
database driver raises when a flush violates a `nullable=False` column. -/
inductive UserError where
  | alreadyExists (msg : String)
  | notFound (msg : String)
  | integrityError
deriving Repr, DecidableEq

/-- Message of `UserAlreadyExistsError` as formatted in
`UserRepository.create` / `UserRepository.update`. -/
def alreadyExistsMsg (email : String) : String :=
  "User with email " ++ email ++ " already exists"

/-- Message of `UserNotFoundError` as formatted in `UserService`. -/
def notFoundMsg (uid : Nat) : String :=
  "User with ID " ++ toString uid ++ " not found"

namespace UserRepository

/-- `UserRepository._get_by_email`: first row whose email matches exactly
(the `users.email` column carries a unique constraint, so at most one row
can match). -/
def get_by_email (s : Store) (email : String) : Option UserRec :=
  s.find? (fun u => u.email == email)

/-- `UserRepository.get_by_id`: the row with the given primary key,
or `None` on a miss. -/
def get_by_id (s : Store) (uid : Nat) : Option UserRec :=
  s.find? (fun u => u.id == uid)

/-- `UserRepository.create`: check email uniqueness, then insert a fresh
row with the draft's name and email, id `newId` (`uuid4`) and both
timestamps set to the current time `t` (`datetime.utcnow` column
defaults).  On the duplicate-email error the raise happens before
`session.add`, so the store is returned unchanged. -/
def create (s : Store) (user_data : UserCreate) (newId : Nat) (t : Nat) :
    Except UserError UserRec × Store :=
  match get_by_email s user_data.email with
  | some _ => (.error (.alreadyExists (alreadyExistsMsg user_data.email)), s)
  | none =>
      let db_user : UserRec :=
        { id := newId, name := user_data.name, email := user_data.email
          created_at := t, updated_at := t }
      (.ok db_user, s ++ [db_user])

/-- `UserRepository.get_all`: `SELECT ... OFFSET skip LIMIT limit` over the
rows in stored order. -/
def get_all (s : Store) (skip : Nat) (limit : Nat) : List UserRec :=
  (s.drop skip).take limit

/-- Replace the first row matching `p` by `f` of it: the in-place
`setattr` mutation of the single ORM object `scalar_one_or_none` found. -/
def updateFirst (p : UserRec → Bool) (f : UserRec → UserRec) :
    Store → Store
  | [] => []
  | u :: rest =>
      if p u then f u :: rest else u :: updateFirst p f rest

/-- The value a column holds after the `setattr` loop of
`UserRepository.update`: the patch value when the field is in the
`exclude_unset` dump (possibly `null`), the old value otherwise. -/
def patchField (old : String) : Option (Option String) → Option String
  | none => some old
  | some v => v

/-- `UserRepository.update`: fetch the row (`None` on a miss — not an
error), run the email-uniqueness check only when the dump has an `email`
key whose value differs from the current email, apply exactly the dumped
fields, refresh `updated_at`, flush.  A flush that would write `null`
into a `nullable=False` column fails and the session rolls back. -/
def update (s : Store) (uid : Nat) (user_data : UserUpdate) (t : Nat) :
    Except UserError (Option UserRec) × Store :=
  match get_by_id s uid with
  | none => (.ok none, s)
  | some db_user =>
      let conflict :=
        match user_data.email with
        | some (some e) =>
            if e == db_user.email then none
            else
              match get_by_email s e with
              | some existing =>
                  if existing.id != uid then some e else none
              | none => none
        | _ => none
      match conflict with
      | some e => (.error (.alreadyExists (alreadyExistsMsg e)), s)
      | none =>
          match patchField db_user.name user_data.name,
              patchField db_user.email user_data.email with
          | some newName, some newEmail =>
              let u' : UserRec :=
                { id := db_user.id, name := newName, email := newEmail
                  created_at := db_user.created_at, updated_at := t }
              (.ok (some u'), updateFirst (fun u => u.id == uid) (fun _ => u') s)
          | _, _ => (.error .integrityError, s)

/-- `UserRepository.delete`: delete the fetched row and report `True`,
or report `False` on a miss. -/
def delete (s : Store) (uid : Nat) : Bool × Store :=
  match get_by_id s uid with
  | some _ => (true, s.eraseP (fun u => u.id == uid))
  | none => (false, s)

/-- `UserRepository.count`: `SELECT count(*)`. -/
def count (s : Store) : Nat := s.length

end UserRepository

namespace UserService

/-- `UserService.create`: delegates to the repository. -/
def create (s : Store) (user_data : UserCreate) (newId : Nat) (t : Nat) :
    Except UserError UserRec × Store :=
  UserRepository.create s user_data newId t

/-- `UserService.get_by_id`: escalates the repository's `None` to
`UserNotFoundError` carrying the id in the message. -/
def get_by_id (s : Store) (uid : Nat) : Except UserError UserRec :=
  match UserRepository.get_by_id s uid with
  | none => .error (.notFound (notFoundMsg uid))
  | some u => .ok u

/-- `UserService.get_all`: clamp `skip` to `max(skip, 0)`, reset `limit`
to 10 when `limit <= 0 or limit > 100`, then fetch the page and the
grand total independently. -/
def get_all (s : Store) (skip : Int) (limit : Int) :
    List UserRec × Nat :=
  let skip' : Int := max skip 0
  let limit' : Int := if limit ≤ 0 ∨ limit > 100 then 10 else limit
  (UserRepository.get_all s skip'.toNat limit'.toNat, UserRepository.count s)

/-- `UserService.update`: existence check first (raising
`UserNotFoundError` before any repository update work), then delegate;
a `None` from the repository also becomes `UserNotFoundError`. -/
def update (s : Store) (uid : Nat) (user_data : UserUpdate) (t : Nat) :
    Except UserError UserRec × Store :=
  match get_by_id s uid with
  | .error e => (.error e, s)
  | .ok _ =>
      match UserRepository.update s uid user_data t with
      | (.error e, s') => (.error e, s')
      | (.ok none, s') => (.error (.notFound (notFoundMsg uid)), s')
      | (.ok (some u), s') => (.ok u, s')

/-- `UserService.delete`: existence check first, then delegate; a `False`
from the repository also becomes `UserNotFoundError`. -/
def delete (s : Store) (uid : Nat) : Except UserError Bool × Store :=
  match get_by_id s uid with
  | .error e => (.error e, s)
  | .ok _ =>
      match UserRepository.delete s uid with
      | (true, s') => (.ok true, s')
      | (false, s') => (.error (.notFound (notFoundMsg uid)), s')

end UserService

/-- States reachable from the empty store by repository operations under a
monotone clock `c` (an upper bound on every timestamp handed out so far;
`datetime.utcnow` is monotone).  `create` steps use a fresh id, as a
`uuid4` draw backed by the primary-key constraint guarantees. -/
inductive Reachable : Store → Nat → Prop where
  | init : Reachable [] 0
  | step_create {s c t newId d u s'} :
      Reachable s c → c ≤ t →
      UserRepository.get_by_id s newId = none →
      UserRepository.create s d newId t = (.ok u, s') →
      Reachable s' t
  | step_update {s c t uid p u s'} :
      Reachable s c → c ≤ t →
      UserRepository.update s uid p t = (.ok (some u), s') →
      Reachable s' t
  | step_delete {s c uid b s'} :
      Reachable s c →
      UserRepository.delete s uid = (b, s') →
      Reachable s' c

/-! ### Helper lemmas about the embedded operations -/

theorem get_by_email_isSome_iff {s : Store} {e : String} :
    (UserRepository.get_by_email s e).isSome ↔ ∃ u ∈ s, u.email = e := by
  simp [UserRepository.get_by_email, List.find?_isSome]

theorem get_by_email_eq_none_iff {s : Store} {e : String} :
    UserRepository.get_by_email s e = none ↔ ∀ u ∈ s, u.email ≠ e := by
  simp [UserRepository.get_by_email, List.find?_eq_none]

theorem get_by_email_some {s : Store} {e : String} {u : UserRec}
    (h : UserRepository.get_by_email s e = some u) : u ∈ s ∧ u.email = e :=
  ⟨List.mem_of_find?_eq_some h, by
    have := List.find?_some h
    simpa using this⟩

theorem get_by_id_eq_none_iff {s : Store} {uid : Nat} :
    UserRepository.get_by_id s uid = none ↔ ∀ u ∈ s, u.id ≠ uid := by
  simp [UserRepository.get_by_id, List.find?_eq_none]

theorem get_by_id_some {s : Store} {uid : Nat} {u : UserRec}
    (h : UserRepository.get_by_id s uid = some u) : u ∈ s ∧ u.id = uid :=
  ⟨List.mem_of_find?_eq_some h, by
    have := List.find?_some h
    simpa using this⟩

theorem id_inj_of_nodup {s : Store}
    (h : (s.map UserRec.id).Nodup) {v w : UserRec}
    (hv : v ∈ s) (hw : w ∈ s) (hid : v.id = w.id) : v = w :=
  List.inj_on_of_nodup_map h hv hw hid

/-! ### Claim theorems -/

/-- Claim C1: for every store state and draft, `Store.create` fails with
`AlreadyExists` exactly when some existing record has the same email
(case-sensitive exact match); otherwise it appends a new record carrying
the draft's name and email and returns it. -/
theorem spec_c1 (s : Store) (d : UserCreate) (i t : Nat) :
    ((UserRepository.create s d i t).1 =
        .error (.alreadyExists (alreadyExistsMsg d.email)) ↔
      ∃ u ∈ s, u.email = d.email) ∧
    (∀ e, (UserRepository.create s d i t).1 = .error e →
      e = .alreadyExists (alreadyExistsMsg d.email)) ∧
    (∀ u s', UserRepository.create s d i t = (.ok u, s') →
      u.name = d.name ∧ u.email = d.email ∧ u.id = i ∧
      u.created_at = t ∧ u.updated_at = t ∧ s' = s ++ [u]) := by
  rcases h : UserRepository.get_by_email s d.email with _ | u
  · have hnone : ∀ u ∈ s, u.email ≠ d.email :=
      get_by_email_eq_none_iff.mp h
    refine ⟨?_, ?_, ?_⟩
    · simp only [UserRepository.create, h]
      constructor
      · intro hc; cases hc
      · rintro ⟨u, hu, he⟩; exact absurd he (hnone u hu)
    · intro e he
      simp [UserRepository.create, h] at he
    · intro u s' hok
      simp only [UserRepository.create, h, Prod.mk.injEq, Except.ok.injEq]
        at hok
      obtain ⟨rfl, rfl⟩ := hok
      exact ⟨rfl, rfl, rfl, rfl, rfl, rfl⟩
  · obtain ⟨hmem, he⟩ := get_by_email_some h
    refine ⟨?_, ?_, ?_⟩
    · simp only [UserRepository.create, h]
      exact ⟨fun _ => ⟨u, hmem, he⟩, fun _ => by simp⟩
    · intro e hee
      simp only [UserRepository.create, h, Except.error.injEq] at hee
      exact hee.symm
    · intro v s' hok
      simp [UserRepository.create, h] at hok

/-- Witness for C1 at a concrete store and draft. -/
theorem spec_c1_witness :
    (UserRepository.create [⟨1, "ann", "a@x.com", 0, 0⟩]
        ⟨"bob", "a@x.com"⟩ 2 5).1 =
      .error (.alreadyExists (alreadyExistsMsg "a@x.com")) :=
  (spec_c1 [⟨1, "ann", "a@x.com", 0, 0⟩] ⟨"bob", "a@x.com"⟩ 2 5).1.mpr
    ⟨⟨1, "ann", "a@x.com", 0, 0⟩, by simp, rfl⟩

/-- Claim C2: `Service.get_all` replaces `skip` by `max(skip, 0)` and
`limit` by 10 whenever `limit <= 0` or `limit > 100`, calls
`Store.get_all` with the normalized values, and pairs the page with
`Store.count` of the full set (the grand total, not the page length). -/
theorem spec_c2 (s : Store) (skip limit : Int) :
    UserService.get_all s skip limit =
      (UserRepository.get_all s (max skip 0).toNat
        (if limit ≤ 0 ∨ limit > 100 then 10 else limit.toNat),
       UserRepository.count s) ∧
    (UserService.get_all s skip limit).2 = s.length := by
  constructor
  · show (_, UserRepository.count s) = _
    by_cases h : limit ≤ 0 ∨ limit > 100 <;>
      simp [UserService.get_all, h]
  · rfl

/-- Claim C3: `Store.get_by_id` returns an absent marker (never an error)
exactly when no record has the id; `Service.get_by_id` fails with
`NotFound` carrying the id in its message exactly when the store reports
absent, and returns the record when one exists. -/
theorem spec_c3 (s : Store) (uid : Nat) :
    (UserRepository.get_by_id s uid = none ↔ ¬ ∃ u ∈ s, u.id = uid) ∧
    (UserService.get_by_id s uid =
        .error (.notFound (notFoundMsg uid)) ↔
      UserRepository.get_by_id s uid = none) ∧
    (∀ u, UserRepository.get_by_id s uid = some u →
      UserService.get_by_id s uid = .ok u) := by
  refine ⟨?_, ?_, ?_⟩
  · rw [get_by_id_eq_none_iff]
    push_neg
    rfl
  · rcases h : UserRepository.get_by_id s uid with _ | u <;>
      simp [UserService.get_by_id, h]
  · intro u h
    simp [UserService.get_by_id, h]

/-- Witness for C3 at a concrete store and id. -/
theorem spec_c3_witness :
    UserService.get_by_id [⟨1, "ann", "a@x.com", 0, 0⟩] 2 =
      .error (.notFound (notFoundMsg 2)) :=
  (spec_c3 [⟨1, "ann", "a@x.com", 0, 0⟩] 2).2.1.mpr (by decide)

/-- Claim C10: when `Store.create` fails (with `AlreadyExists`), the
store state is returned unchanged: the uniqueness check runs before any
record is constructed or persisted. -/
theorem spec_c10 (s : Store) (d : UserCreate) (i t : Nat) (e : UserError)
    (h : (UserRepository.create s d i t).1 = .error e) :
    (UserRepository.create s d i t).2 = s := by
  rcases he : UserRepository.get_by_email s d.email with _ | u
  · simp [UserRepository.create, he] at h
  · simp [UserRepository.create, he]

/-- Witness for C10 at a concrete duplicate-email create. -/
theorem spec_c10_witness :
    (UserRepository.create [⟨1, "ann", "a@x.com", 0, 0⟩]
        ⟨"bob", "a@x.com"⟩ 2 5).2 = [⟨1, "ann", "a@x.com", 0, 0⟩] :=
  spec_c10 [⟨1, "ann", "a@x.com", 0, 0⟩] ⟨"bob", "a@x.com"⟩ 2 5
    (.alreadyExists (alreadyExistsMsg "a@x.com")) rfl

/-- Claim C7: `Store.get_all` pages over the records in their stored
(insertion) order: element `j` of the page is element `skip + j` of the
store, the page holds `min limit (count - skip)` records, and a `skip`
at or beyond the count yields the empty sequence without error. -/
theorem spec_c7 (s : Store) (skip limit : Nat) :
    (UserRepository.get_all s skip limit).length =
      min limit (s.length - skip) ∧
    (∀ j, j < (UserRepository.get_all s skip limit).length →
      (UserRepository.get_all s skip limit)[j]? = s[skip + j]?) ∧
    (s.length ≤ skip → UserRepository.get_all s skip limit = []) := by
  refine ⟨?_, ?_, ?_⟩
  · simp [UserRepository.get_all]
  · intro j hj
    have hjlim : j < limit := by
      simp [UserRepository.get_all] at hj
      omega
    unfold UserRepository.get_all
    rw [List.getElem?_take]
    simp [hjlim, List.getElem?_drop]
  · intro h
    simp [UserRepository.get_all, List.drop_eq_nil_of_le h]

/-- Witness for C7 at a concrete three-record store. -/
theorem spec_c7_witness :
    (UserRepository.get_all
      [⟨1, "a", "a@x.com", 0, 0⟩, ⟨2, "b", "b@x.com", 0, 0⟩,
        ⟨3, "c", "c@x.com", 0, 0⟩] 1 1)[0]? =
      [⟨1, "a", "a@x.com", 0, 0⟩, ⟨2, "b", "b@x.com", 0, 0⟩,
        ⟨3, "c", "c@x.com", 0, 0⟩][1 + 0]? :=
  (spec_c7 [⟨1, "a", "a@x.com", 0, 0⟩, ⟨2, "b", "b@x.com", 0, 0⟩,
    ⟨3, "c", "c@x.com", 0, 0⟩] 1 1).2.1 0 (by decide)

theorem mem_eraseP_id_ne {s : Store} {uid : Nat}
    (h : (s.map UserRec.id).Nodup) :
    ∀ v ∈ s.eraseP (fun u => u.id == uid), v.id ≠ uid := by
  induction s with
  | nil => simp
  | cons a rest ih =>
      simp only [List.map_cons, List.nodup_cons] at h
      by_cases ha : a.id = uid
      · rw [List.eraseP_cons_of_pos (by simpa using ha)]
        intro v hv hvid
        exact h.1 (by rw [ha, ← hvid]; exact List.mem_map_of_mem _ hv)
      · rw [List.eraseP_cons_of_neg (by simpa using ha)]
        intro v hv
        rcases List.mem_cons.mp hv with rfl | hv'
        · exact ha
        · exact ih h.2 v hv'

/-- Claim C8: `Store.delete` returns `true` exactly when a record with
the id existed, and removes it; on a state without the id it returns
`false` and leaves the state unchanged, so a second delete of the same
id returns `false` and changes nothing. -/
theorem spec_c8 (s : Store) (uid : Nat)
    (hids : (s.map UserRec.id).Nodup) :
    ((UserRepository.delete s uid).1 = true ↔ ∃ u ∈ s, u.id = uid) ∧
    (∀ v ∈ (UserRepository.delete s uid).2, v.id ≠ uid) ∧
    ((¬ ∃ u ∈ s, u.id = uid) → UserRepository.delete s uid = (false, s)) ∧
    UserRepository.delete (UserRepository.delete s uid).2 uid =
      (false, (UserRepository.delete s uid).2) := by
  have habs : ∀ s2 : Store, (∀ v ∈ s2, v.id ≠ uid) →
      UserRepository.delete s2 uid = (false, s2) := by
    intro s2 h2
    have h3 : UserRepository.get_by_id s2 uid = none :=
      get_by_id_eq_none_iff.mpr h2
    simp [UserRepository.delete, h3]
  rcases h : UserRepository.get_by_id s uid with _ | u
  · have hnone := get_by_id_eq_none_iff.mp h
    have hd : UserRepository.delete s uid = (false, s) := habs s hnone
    refine ⟨?_, ?_, fun _ => hd, ?_⟩
    · rw [hd]
      simp only [Bool.false_eq_true, false_iff]
      rintro ⟨u, hu, huid⟩
      exact hnone u hu huid
    · rw [hd]
      exact hnone
    · rw [hd]
      exact hd
  · obtain ⟨hmem, huid⟩ := get_by_id_some h
    have hrm : ∀ v ∈ s.eraseP (fun u => u.id == uid), v.id ≠ uid :=
      mem_eraseP_id_ne hids
    have hd : UserRepository.delete s uid =
        (true, s.eraseP (fun u => u.id == uid)) := by
      simp [UserRepository.delete, h]
    refine ⟨?_, ?_, ?_, ?_⟩
    · rw [hd]
      exact ⟨fun _ => ⟨u, hmem, huid⟩, fun _ => rfl⟩
    · rw [hd]
      exact hrm
    · intro hne
      exact absurd ⟨u, hmem, huid⟩ hne
    · rw [hd]
      exact habs _ hrm

/-- Witness for C8 at a concrete one-record store. -/
theorem spec_c8_witness :
    (UserRepository.delete [⟨1, "ann", "a@x.com", 0, 0⟩] 1).1 = true :=
  (spec_c8 [⟨1, "ann", "a@x.com", 0, 0⟩] 1 (by simp)).1.mpr
    ⟨⟨1, "ann", "a@x.com", 0, 0⟩, by simp, rfl⟩

theorem update_ok_inv {s : Store} {uid : Nat} {p : UserUpdate} {t : Nat}
    {u' : UserRec} {s' : Store}
    (h : UserRepository.update s uid p t = (.ok (some u'), s')) :
    ∃ v, UserRepository.get_by_id s uid = some v ∧
      UserRepository.patchField v.name p.name = some u'.name ∧
      UserRepository.patchField v.email p.email = some u'.email ∧
      u'.id = v.id ∧ u'.created_at = v.created_at ∧ u'.updated_at = t ∧
      s' = UserRepository.updateFirst (fun u => u.id == uid)
        (fun _ => u') s := by
  rcases hid : UserRepository.get_by_id s uid with _ | v
  · simp [UserRepository.update, hid] at h
  · refine ⟨v, rfl, ?_⟩
    simp only [UserRepository.update, hid] at h
    split at h
    · simp at h
    · split at h
      · rename_i newName newEmail hn he
        obtain ⟨h1, h2⟩ := Prod.mk.injEq .. ▸ h
        obtain rfl : u' = ⟨v.id, newName, newEmail, v.created_at, t⟩ :=
          (Option.some.injEq .. ▸ (Except.ok.injEq .. ▸ h1)).symm
        exact ⟨hn, he, rfl, rfl, rfl, h2.symm⟩
      · simp at h

/-- Claim C4: when the id is absent, `Service.update` fails with
`NotFound` for every patch — even one whose email collides with another
record — leaving the store unchanged, and never with `AlreadyExists`. -/
theorem spec_c4 (s : Store) (uid : Nat) (p : UserUpdate) (t : Nat)
    (h : UserRepository.get_by_id s uid = none) :
    UserService.update s uid p t =
      (.error (.notFound (notFoundMsg uid)), s) ∧
    ∀ msg, (UserService.update s uid p t).1 ≠
      .error (.alreadyExists msg) := by
  have hsvc : UserService.get_by_id s uid =
      .error (.notFound (notFoundMsg uid)) := by
    simp [UserService.get_by_id, h]
  constructor
  · simp [UserService.update, hsvc]
  · intro msg
    simp [UserService.update, hsvc]

/-- Witness for C4: missing id together with a colliding patch email. -/
theorem spec_c4_witness :
    UserService.update [⟨1, "ann", "a@x.com", 0, 0⟩] 2
        ⟨none, some (some "a@x.com")⟩ 5 =
      (.error (.notFound (notFoundMsg 2)), [⟨1, "ann", "a@x.com", 0, 0⟩]) :=
  (spec_c4 [⟨1, "ann", "a@x.com", 0, 0⟩] 2
    ⟨none, some (some "a@x.com")⟩ 5 rfl).1

/-- Claim C5: updating a record with its own current email is not a
conflict (no `AlreadyExists`, and the update succeeds whenever the patch
does not null the name); a patch email that differs from the current
email and is held by some other record fails with `AlreadyExists`,
leaving the store unchanged. -/
theorem spec_c5 (s : Store) (uid : Nat) (u : UserRec) (t : Nat)
    (hids : (s.map UserRec.id).Nodup)
    (hu : UserRepository.get_by_id s uid = some u) :
    (∀ p : UserUpdate, p.email = some (some u.email) →
      (∀ msg, (UserRepository.update s uid p t).1 ≠
        .error (.alreadyExists msg)) ∧
      (p.name ≠ some none →
        ∃ u' s', UserRepository.update s uid p t = (.ok (some u'), s'))) ∧
    (∀ (p : UserUpdate) (e : String), p.email = some (some e) →
      e ≠ u.email → (∃ v ∈ s, v.email = e) →
      UserRepository.update s uid p t =
        (.error (.alreadyExists (alreadyExistsMsg e)), s)) := by
  constructor
  · rintro ⟨pn, pe⟩ hpe
    simp only at hpe
    subst hpe
    rcases pn with _ | (_ | n)
    · constructor
      · intro msg
        simp [UserRepository.update, hu, UserRepository.patchField]
      · intro _
        refine ⟨⟨u.id, u.name, u.email, u.created_at, t⟩,
          UserRepository.updateFirst (fun v => v.id == uid)
            (fun _ => ⟨u.id, u.name, u.email, u.created_at, t⟩) s, ?_⟩
        simp [UserRepository.update, hu, UserRepository.patchField]
    · constructor
      · intro msg
        simp [UserRepository.update, hu, UserRepository.patchField]
      · intro hne
        exact absurd rfl hne
    · constructor
      · intro msg
        simp [UserRepository.update, hu, UserRepository.patchField]
      · intro _
        refine ⟨⟨u.id, n, u.email, u.created_at, t⟩,
          UserRepository.updateFirst (fun v => v.id == uid)
            (fun _ => ⟨u.id, n, u.email, u.created_at, t⟩) s, ?_⟩
        simp [UserRepository.update, hu, UserRepository.patchField]
  · rintro ⟨pn, pe⟩ e hpe hne ⟨v, hv, hve⟩
    simp only at hpe
    subst hpe
    obtain ⟨w, hw⟩ : ∃ w, UserRepository.get_by_email s e = some w :=
      Option.isSome_iff_exists.mp
        (get_by_email_isSome_iff.mpr ⟨v, hv, hve⟩)
    obtain ⟨hwmem, hwe⟩ := get_by_email_some hw
    obtain ⟨humem, huid⟩ := get_by_id_some hu
    have hwid : w.id ≠ uid := by
      intro heq
      have : w = u := id_inj_of_nodup hids hwmem humem (heq.trans huid.symm)
      rw [this] at hwe
      exact hne hwe.symm
    have h1 : (e == u.email) = false := beq_eq_false_iff_ne.mpr hne
    have h2 : (w.id != uid) = true := by
      simp [bne_iff_ne, hwid]
    simp [UserRepository.update, hu, h1, hw, h2]

/-- Witness for C5: changing a record's email to another record's email
is rejected with `AlreadyExists`. -/
theorem spec_c5_witness :
    UserRepository.update
        [⟨1, "ann", "a@x.com", 0, 0⟩, ⟨2, "bob", "b@x.com", 0, 0⟩] 1
        ⟨none, some (some "b@x.com")⟩ 5 =
      (.error (.alreadyExists (alreadyExistsMsg "b@x.com")),
        [⟨1, "ann", "a@x.com", 0, 0⟩, ⟨2, "bob", "b@x.com", 0, 0⟩]) :=
  (spec_c5 [⟨1, "ann", "a@x.com", 0, 0⟩, ⟨2, "bob", "b@x.com", 0, 0⟩] 1
      ⟨1, "ann", "a@x.com", 0, 0⟩ 5 (by simp) rfl).2
    ⟨none, some (some "b@x.com")⟩ "b@x.com" rfl (by decide)
    ⟨⟨2, "bob", "b@x.com", 0, 0⟩, by simp, rfl⟩

/-- Claim C6: `Store.update` applies exactly the fields present in the
patch: a name-only patch leaves the email unchanged (and succeeds), an
email-only patch leaves the name unchanged, unset fields are untouched,
and `id` and `created_at` are never changed. -/
theorem spec_c6 (s : Store) (uid : Nat) (u : UserRec) (t : Nat)
    (hu : UserRepository.get_by_id s uid = some u) :
    (∀ n, ∃ s', UserRepository.update s uid ⟨some (some n), none⟩ t =
      (.ok (some ⟨u.id, n, u.email, u.created_at, t⟩), s')) ∧
    (∀ e u' s', UserRepository.update s uid ⟨none, some (some e)⟩ t =
        (.ok (some u'), s') → u'.name = u.name ∧ u'.email = e) ∧
    (∀ (p : UserUpdate) (u' : UserRec) (s' : Store),
      UserRepository.update s uid p t = (.ok (some u'), s') →
      u'.id = u.id ∧ u'.created_at = u.created_at ∧ u'.updated_at = t ∧
      (p.name = none → u'.name = u.name) ∧
      (p.email = none → u'.email = u.email) ∧
      (∀ x, p.name = some (some x) → u'.name = x) ∧
      (∀ x, p.email = some (some x) → u'.email = x)) := by
  refine ⟨?_, ?_, ?_⟩
  · intro n
    refine ⟨UserRepository.updateFirst (fun v => v.id == uid)
      (fun _ => ⟨u.id, n, u.email, u.created_at, t⟩) s, ?_⟩
    simp [UserRepository.update, hu, UserRepository.patchField]
  · intro e u' s' h
    obtain ⟨v, hv, hn, he, _, _, _, _⟩ := update_ok_inv h
    obtain rfl : v = u := by
      rw [hu] at hv
      exact (Option.some.inj hv).symm
    simp only [UserRepository.patchField] at hn he
    exact ⟨(Option.some.inj hn).symm, (Option.some.inj he).symm⟩
  · intro p u' s' h
    obtain ⟨v, hv, hn, he, hid, hca, hua, _⟩ := update_ok_inv h
    obtain rfl : v = u := by
      rw [hu] at hv
      exact (Option.some.inj hv).symm
    refine ⟨hid, hca, hua, ?_, ?_, ?_, ?_⟩
    · intro hpn
      rw [hpn] at hn
      simp only [UserRepository.patchField] at hn
      exact (Option.some.inj hn).symm
    · intro hpe
      rw [hpe] at he
      simp only [UserRepository.patchField] at he
      exact (Option.some.inj he).symm
    · intro x hpn
      rw [hpn] at hn
      simp only [UserRepository.patchField] at hn
      exact (Option.some.inj hn).symm
    · intro x hpe
      rw [hpe] at he
      simp only [UserRepository.patchField] at he
      exact (Option.some.inj he).symm

/-- Witness for C6: an email-only update leaves the name unchanged. -/
theorem spec_c6_witness :
    (⟨1, "ann", "c@x.com", 0, 5⟩ : UserRec).name = "ann" ∧
    (⟨1, "ann", "c@x.com", 0, 5⟩ : UserRec).email = "c@x.com" :=
  (spec_c6 [⟨1, "ann", "a@x.com", 0, 0⟩] 1
      ⟨1, "ann", "a@x.com", 0, 0⟩ 5 rfl).2.1
    "c@x.com" ⟨1, "ann", "c@x.com", 0, 5⟩
    [⟨1, "ann", "c@x.com", 0, 5⟩] rfl

theorem create_ok_inv {s : Store} {d : UserCreate} {i t : Nat}
    {u : UserRec} {s' : Store}
    (h : UserRepository.create s d i t = (.ok u, s')) :
    u = ⟨i, d.name, d.email, t, t⟩ ∧ s' = s ++ [u] := by
  rcases he : UserRepository.get_by_email s d.email with _ | w
  · simp only [UserRepository.create, he, Prod.mk.injEq,
      Except.ok.injEq] at h
    obtain ⟨h1, h2⟩ := h
    subst h1
    exact ⟨rfl, h2.symm⟩
  · simp [UserRepository.create, he] at h

theorem delete_store_cases {s : Store} {uid : Nat} {b : Bool} {s' : Store}
    (h : UserRepository.delete s uid = (b, s')) :
    s' = s ∨ s' = s.eraseP (fun u => u.id == uid) := by
  rcases hid : UserRepository.get_by_id s uid with _ | w <;>
    simp only [UserRepository.delete, hid, Prod.mk.injEq] at h
  · exact Or.inl h.2.symm
  · exact Or.inr h.2.symm

theorem mem_updateFirst {p : UserRec → Bool} {f : UserRec → UserRec}
    {s : Store} {v : UserRec}
    (h : v ∈ UserRepository.updateFirst p f s) :
    v ∈ s ∨ ∃ w ∈ s, v = f w := by
  induction s with
  | nil => simp [UserRepository.updateFirst] at h
  | cons a rest ih =>
      rw [UserRepository.updateFirst] at h
      by_cases hp : p a
      · rw [if_pos hp] at h
        rcases List.mem_cons.mp h with rfl | h'
        · exact Or.inr ⟨a, List.mem_cons_self a rest, rfl⟩
        · exact Or.inl (List.mem_cons_of_mem _ h')
      · rw [if_neg hp] at h
        rcases List.mem_cons.mp h with rfl | h'
        · exact Or.inl (List.mem_cons_self v rest)
        · rcases ih h' with h'' | ⟨w, hw, rfl⟩
          · exact Or.inl (List.mem_cons_of_mem _ h'')
          · exact Or.inr ⟨w, List.mem_cons_of_mem _ hw, rfl⟩

theorem reachable_timestamps {s : Store} {c : Nat} (h : Reachable s c) :
    ∀ u ∈ s, u.created_at ≤ u.updated_at ∧ u.updated_at ≤ c := by
  induction h with
  | init =>
      intro u hu
      cases hu
  | step_create hr hct hfresh hc ih =>
      obtain ⟨rfl, rfl⟩ := create_ok_inv hc
      intro v hv
      rcases List.mem_append.mp hv with hv' | hv'
      · obtain ⟨h1, h2⟩ := ih v hv'
        exact ⟨h1, h2.trans hct⟩
      · rcases List.mem_singleton.mp hv' with rfl
        exact ⟨Nat.le_refl _, Nat.le_refl _⟩
  | step_update hr hct hup ih =>
      obtain ⟨v, hv, hn, he, hid, hca, hua, rfl⟩ := update_ok_inv hup
      obtain ⟨hvmem, _⟩ := get_by_id_some hv
      intro w hw
      rcases mem_updateFirst hw with hw' | ⟨x, hx, rfl⟩
      · obtain ⟨h1, h2⟩ := ih w hw'
        exact ⟨h1, h2.trans hct⟩
      · obtain ⟨h1, h2⟩ := ih v hvmem
        constructor
        · rw [hca, hua]
          exact h1.trans (h2.trans hct)
        · rw [hua]
  | step_delete hr hdel ih =>
      intro v hv
      rcases delete_store_cases hdel with rfl | rfl
      · exact ih v hv
      · exact ih v ((List.eraseP_sublist _).mem hv)

/-- Claim C9: in every reachable store state every stored record has
updated_at ≥ created_at; creation sets both timestamps to the creation
time, and every successful update keeps created_at and refreshes
updated_at to the current time. -/
theorem spec_c9 (s : Store) (c : Nat) (h : Reachable s c) :
    (∀ u ∈ s, u.created_at ≤ u.updated_at) ∧
    (∀ (d : UserCreate) (i t : Nat) (u : UserRec) (s' : Store),
      UserRepository.create s d i t = (.ok u, s') →
      u.created_at = t ∧ u.updated_at = t) ∧
    (∀ (uid t : Nat) (p : UserUpdate) (v u' : UserRec) (s' : Store),
      UserRepository.get_by_id s uid = some v →
      UserRepository.update s uid p t = (.ok (some u'), s') →
      u'.created_at = v.created_at ∧ u'.updated_at = t) := by
  refine ⟨fun u hu => (reachable_timestamps h u hu).1, ?_, ?_⟩
  · intro d i t u s' hc
    obtain ⟨rfl, _⟩ := create_ok_inv hc
    exact ⟨rfl, rfl⟩
  · intro uid t p v u' s' hv hup
    obtain ⟨w, hw, _, _, _, hca, hua, _⟩ := update_ok_inv hup
    rw [hv] at hw
    obtain rfl := Option.some.inj hw
    exact ⟨hca, hua⟩

/-- Witness for C9: a store reached by one create satisfies the
timestamp invariant. -/
theorem spec_c9_witness :
    (⟨1, "ann", "a@x.com", 3, 3⟩ : UserRec).created_at ≤
      (⟨1, "ann", "a@x.com", 3, 3⟩ : UserRec).updated_at :=
  (spec_c9 [⟨1, "ann", "a@x.com", 3, 3⟩] 3
      (@Reachable.step_create [] 0 3 1 ⟨"ann", "a@x.com"⟩
        ⟨1, "ann", "a@x.com", 3, 3⟩ [⟨1, "ann", "a@x.com", 3, 3⟩]
        Reachable.init (by decide) rfl rfl)).1
    ⟨1, "ann", "a@x.com", 3, 3⟩ (by simp)
